import Mathlib

/-!
Verification of the update-by-query request builder (`opensearch_dsl/update_by_query.py`).

The builder and its operations (`filter`, `exclude`, `script`, `response_class`,
`to_dict`, `from_dict`, `update_from_dict`, `execute`) are translated from the
source file.  Python dictionaries are mutable heap objects, so the model keeps a
store of dictionary cells with identity (`Store`); cloning copies cell contents
into fresh cells exactly where the source copies (`self._script.copy()`,
`self._extra.copy()`).  The query value layer (`Q`, `Bool`, `~`, `&`) and the
base `Request`/`QueryProxy` machinery live outside the packaged source, so those
parts are modelled from the specification, as marked in their doc comments.
-/

/-- JSON-like values making up wire bodies. -/
inductive JVal where
  | jnull
  | jbool (b : Bool)
  | jnum (n : Int)
  | jstr (s : String)
  | jarr (xs : List JVal)
  | jobj (fields : List (String × JVal))

/-- A Python dictionary value: an ordered association list of string keys. -/
abbrev JDict := List (String × JVal)

/-- Lookup of a key in a dictionary (first occurrence). -/
def dget (d : JDict) (k : String) : Option JVal :=
  match d with
  | [] => none
  | (k1, v) :: rest => if k1 = k then some v else dget rest k

/-- The keys of a dictionary, in order. -/
def dkeys (d : JDict) : List String := d.map Prod.fst

/-- Python `d[k] = v`: replace the value in place if the key exists (keeping its
position), otherwise append the binding at the end. -/
def dinsert (d : JDict) (k : String) (v : JVal) : JDict :=
  match d with
  | [] => [(k, v)]
  | (k1, v1) :: rest => if k1 = k then (k1, v) :: rest else (k1, v1) :: dinsert rest k v

/-- Python `d.update(kvs)`: insert every binding of `kvs` into `d`, in order. -/
def dupdate (d : JDict) (kvs : JDict) : JDict :=
  match kvs with
  | [] => d
  | (k, v) :: rest => dupdate (dinsert d k v) rest

/-- Remove every binding whose key occurs in `ks` (Python `d.pop(k)` for each
key; dictionary keys are unique, so filtering removes exactly that binding). -/
def dremoveKeys (d : JDict) (ks : List String) : JDict :=
  d.filter (fun p => !(ks.contains p.1))

/-- Left-biased choice on optional values (first hit wins). -/
def orO (a b : Option JVal) : Option JVal :=
  match a with
  | some v => some v
  | none => b

/-- Modelled from the spec: a query value is an immutable tree — a leaf query
term (kind plus field/value parameters) or a compound `bool` node holding
ordered child lists under the boolean operators `must`, `filter`, `should`,
`must_not` (spec section 3, "QueryNode").  The empty/match-all marker of the
spec is the unset state of the owning proxy and is represented at the builder
level by `Option.none`. -/
inductive QueryNode where
  | leaf (kind : String) (params : JDict)
  | boolq (must filt should must_not : List QueryNode)

mutual

/-- Modelled from the spec: serialization of a query node into its wire form —
a leaf serializes as `{kind: params}`, a compound node as `{"bool": {...}}`
with empty clause lists omitted (spec sections 3 and 6). -/
def QueryNode.toDict : QueryNode → JVal
  | .leaf kind params => .jobj [(kind, .jobj params)]
  | .boolq m f sh mn => .jobj [("bool", .jobj (
      (if m.isEmpty then [] else [("must", JVal.jarr (toDictList m))]) ++
      (if f.isEmpty then [] else [("filter", JVal.jarr (toDictList f))]) ++
      (if sh.isEmpty then [] else [("should", JVal.jarr (toDictList sh))]) ++
      (if mn.isEmpty then [] else [("must_not", JVal.jarr (toDictList mn))])))]

/-- Serialization of a clause list, elementwise. -/
def toDictList : List QueryNode → List JVal
  | [] => []
  | q :: qs => q.toDict :: toDictList qs

end

/-- Assembly of a parsed `bool` body into a compound node (a parse failure
passes through). -/
def mkBool (acc : Option (List QueryNode × List QueryNode × List QueryNode × List QueryNode)) :
    Option QueryNode :=
  match acc with
  | some (m, f, sh, mn) => some (.boolq m f sh mn)
  | none => none

/-- Assignment of a parsed clause list to its slot by clause key; an unknown
key is a construction error. -/
def assignClause (k : String) (l m f sh mn : List QueryNode) :
    Option (List QueryNode × List QueryNode × List QueryNode × List QueryNode) :=
  if k = "must" then some (l, f, sh, mn)
  else if k = "filter" then some (m, l, sh, mn)
  else if k = "should" then some (m, f, l, mn)
  else if k = "must_not" then some (m, f, sh, l)
  else none

/-- One step of clause-field parsing: both the remaining fields and the
current clause value must have parsed. -/
def pbfStep (k : String)
    (acc : Option (List QueryNode × List QueryNode × List QueryNode × List QueryNode))
    (lres : Option (List QueryNode)) :
    Option (List QueryNode × List QueryNode × List QueryNode × List QueryNode) :=
  match acc, lres with
  | some (m, f, sh, mn), some l => assignClause k l m f sh mn
  | _, _ => none

/-- Pairing of a parsed head query with a parsed tail list. -/
def consParsed : Option QueryNode → Option (List QueryNode) → Option (List QueryNode)
  | some q, some qs => some (q :: qs)
  | _, _ => none

mutual

/-- Modelled from the spec: `Q(d)` — parsing a wire value back into a query
node.  A one-entry object `{name: body}` is a compound node when `name` is
`"bool"` and a leaf query otherwise; anything else is a construction error
(spec sections 4.1 and 7, "construction errors ... fail fast"). -/
def parseQ : JVal → Option QueryNode
  | .jobj [(name, .jobj fields)] =>
      if name = "bool" then mkBool (parseBoolFields fields)
      else some (.leaf name fields)
  | _ => none

/-- Parsing of the clause fields of a `bool` body: each entry must be one of
the four clause keys holding an array of queries. -/
def parseBoolFields : List (String × JVal) →
    Option (List QueryNode × List QueryNode × List QueryNode × List QueryNode)
  | [] => some ([], [], [], [])
  | (k, v) :: rest =>
    pbfStep k (parseBoolFields rest)
      (match v with
       | .jarr items => parseQList items
       | _ => none)

/-- Parsing of an array of queries, elementwise. -/
def parseQList : List JVal → Option (List QueryNode)
  | [] => some []
  | v :: vs => consParsed (parseQ v) (parseQList vs)

end

mutual

/-- Well-formedness of a query node: no leaf is named `"bool"` (the public
query constructor `Q` reserves that name for compound nodes, so every query
built through the API satisfies this). -/
def QueryNode.wfq : QueryNode → Bool
  | .leaf kind _ => kind ≠ "bool"
  | .boolq m f sh mn => wfqList m && wfqList f && wfqList sh && wfqList mn

/-- Well-formedness of a clause list, elementwise. -/
def wfqList : List QueryNode → Bool
  | [] => true
  | q :: qs => q.wfq && wfqList qs

end

/-- Whether a node is a compound with exactly one `must_not` child and no other
clause. -/
def isSoleMustNot : QueryNode → Bool
  | .boolq [] [] [] [_] => true
  | _ => false

/-- Modelled from the spec: `negate(a)` (the `~` operator) — if `a` is already
a single-child `must_not` compound, return its child (double negation
cancels); otherwise wrap `a` as the sole `must_not` child of a new compound
node (spec section 4.1). -/
def negate (q : QueryNode) : QueryNode :=
  match q with
  | .boolq [] [] [] [c] => c
  | _ => .boolq [] [] [] [q]

/-- Whether a node is spliceable for AND-combination: a compound carrying only
`must`/`filter` clauses. -/
def spliceable : QueryNode → Bool
  | .boolq _ _ [] [] => true
  | _ => false

/-- Modelled from the spec: `combine(a, b)` (the `&` operator) — wrap both
operands as children of a compound `bool` node; an operand that is already a
compound with only a `filter`/`must` clause has its children spliced in
directly rather than nested one level deeper (spec section 4.1).  The
empty-marker identity cases live at the proxy level, which only calls
`combine` when a query is already set. -/
def combine (a b : QueryNode) : QueryNode :=
  match a, b with
  | .boolq m1 f1 [] [], .boolq m2 f2 [] [] => .boolq (m1 ++ m2) (f1 ++ f2) [] []
  | .boolq m1 f1 [] [], other => .boolq (m1 ++ [other]) f1 [] []
  | other, .boolq m2 f2 [] [] => .boolq (other :: m2) f2 [] []
  | x, y => .boolq [x, y] [] [] []

/-- Read of a cell list at a reference (first occurrence; a missing cell reads
as the empty dictionary). -/
def readCells : List (Nat × JDict) → Nat → JDict
  | [], _ => []
  | (r1, d) :: rest, r => if r1 = r then d else readCells rest r

/-- In-place overwrite of the first cell with the given reference. -/
def setCell : List (Nat × JDict) → Nat → JDict → List (Nat × JDict)
  | [], _, _ => []
  | (r1, d1) :: rest, r, d => if r1 = r then (r1, d) :: rest else (r1, d1) :: setCell rest r d

/-- The heap of mutable dictionary objects: a counter of allocated identities
and the association of references to current contents.  Builder instances draw
their identity from the same counter. -/
structure Store where
  nextId : Nat
  cells : List (Nat × JDict)

/-- Read a dictionary object. -/
def Store.read (s : Store) (r : Nat) : JDict := readCells s.cells r

/-- Allocate a fresh dictionary object with the given contents. -/
def Store.alloc (s : Store) (d : JDict) : Nat × Store :=
  (s.nextId, ⟨s.nextId + 1, (s.nextId, d) :: s.cells⟩)

/-- Draw a fresh identity (for a new builder instance). -/
def Store.freshId (s : Store) : Nat × Store :=
  (s.nextId, ⟨s.nextId + 1, s.cells⟩)

/-- Overwrite a dictionary object in place (Python `d.update(...)` and
friends). -/
def Store.write (s : Store) (r : Nat) (d : JDict) : Store :=
  ⟨s.nextId, setCell s.cells r d⟩

/-- The raw reply wrapped by the configured response type: the source builds
`self._response_class(self, raw)` (the response wrapper contract of spec
section 6). -/
structure UbqResponse where
  cls : Nat
  owner : Nat
  raw : JDict

/-- The `UpdateByQuery` request builder.  `scriptRef`/`extraRef` are the
identities of the `_script` and `_extra` dictionary objects in the store;
`queryProxied` is the query proxy's held node (`None` when unset);
`respClass`, `index`, `usingConn` and `params` are the `_response_class`,
`_index`, `_using` and `_params` addressing/config fields; `bid` is the
instance identity; `response` is the `_response` cache set by `execute`. -/
structure UpdateByQuery where
  bid : Nat
  queryProxied : Option QueryNode
  scriptRef : Nat
  extraRef : Nat
  respClass : Nat
  index : Option String
  usingConn : String
  params : JDict
  response : Option UbqResponse

/-- The token standing for the `UpdateByQueryResponse` class installed by
`__init__`. -/
def updateByQueryResponseCls : Nat := 0

/-- `UpdateByQuery()` — the constructor: the base request state (modelled from
the spec: empty extras, default connection, no index), then
`self._response_class = UpdateByQueryResponse`, `self._script = {}` and a
fresh query proxy holding nothing. -/
def UpdateByQuery.init (s : Store) : UpdateByQuery × Store :=
  let (bid, s1) := s.freshId
  let (er, s2) := s1.alloc []
  let (sr, s3) := s2.alloc []
  (⟨bid, none, sr, er, updateByQueryResponseCls, none, "default", [], none⟩, s3)

/-- `_clone` — a new instance whose extras and script dictionaries are shallow
copies of the receiver's (`ubq._script = self._script.copy()`, and the base
clone copies `_extra`; modelled from the spec for the base part), sharing the
immutable query node (`ubq.query._proxied = self.query._proxied`) and the
response class. -/
def UpdateByQuery.clone (b : UpdateByQuery) (s : Store) : UpdateByQuery × Store :=
  let (bid, s1) := s.freshId
  let (er, s2) := s1.alloc (s.read b.extraRef)
  let (sr, s3) := s2.alloc (s.read b.scriptRef)
  (⟨bid, b.queryProxied, sr, er, b.respClass, b.index, b.usingConn, b.params, none⟩, s3)

/-- Modelled from the spec: the query proxy's call — clone the owning builder,
then store onto the clone the combination of the held node with the supplied
one (or the supplied one alone when nothing is held: the empty marker is the
identity of `combine`) (spec sections 2 and 4.2). -/
def UpdateByQuery.queryCall (b : UpdateByQuery) (qn : QueryNode) (s : Store) :
    UpdateByQuery × Store :=
  let (c, s1) := b.clone s
  let merged : QueryNode :=
    match b.queryProxied with
    | none => qn
    | some cur => combine cur qn
  ({ c with queryProxied := some merged }, s1)

/-- `filter` — `self.query(Bool(filter=[Q(...)]))`: AND-combine a `filter`-mode
wrapper of the supplied term into the current query. -/
def UpdateByQuery.filter (b : UpdateByQuery) (qn : QueryNode) (s : Store) :
    UpdateByQuery × Store :=
  b.queryCall (.boolq [] [qn] [] []) s

/-- `exclude` — `self.query(Bool(filter=[~Q(...)]))`: AND-combine a `filter`
clause containing the negation of the supplied term. -/
def UpdateByQuery.exclude (b : UpdateByQuery) (qn : QueryNode) (s : Store) :
    UpdateByQuery × Store :=
  b.queryCall (.boolq [] [negate qn] [] []) s

/-- `response_class` — clone, then override the wrapper used for the
response. -/
def UpdateByQuery.response_class (b : UpdateByQuery) (cls : Nat) (s : Store) :
    UpdateByQuery × Store :=
  let (ubq, s1) := b.clone s
  ({ ubq with respClass := cls }, s1)

/-- `script` — clone; if the clone's script mapping is non-empty, rebind it to
a fresh empty dictionary (`ubq._script = {}`); then `ubq._script.update(kwargs)`. -/
def UpdateByQuery.script (b : UpdateByQuery) (kwargs : JDict) (s : Store) :
    UpdateByQuery × Store :=
  let (ubq, s1) := b.clone s
  let (ubq2, s2) :=
    if (s1.read ubq.scriptRef).isEmpty then (ubq, s1)
    else
      let (r, s1a) := s1.alloc []
      ({ ubq with scriptRef := r }, s1a)
  let s3 := s2.write ubq2.scriptRef (dupdate (s2.read ubq2.scriptRef) kwargs)
  (ubq2, s3)

/-- `update_from_dict` — work on a copy of the caller's mapping (`d =
d.copy()`); pop `"query"` (parsed with `Q`, which fails fast on a malformed
body) and `"script"` (stored verbatim; the wire format of spec section 6 types
it as an object) from the copy, and merge every remaining key into the
instance's extras in place (`self._extra.update(d)`). -/
def UpdateByQuery.update_from_dict (b : UpdateByQuery) (dRef : Nat) (s : Store) :
    Option (UpdateByQuery × Store) :=
  let d := s.read dRef
  let newQ : Option (Option QueryNode) :=
    match dget d "query" with
    | none => some b.queryProxied
    | some v =>
      match parseQ v with
      | some qn => some (some qn)
      | none => none
  match newQ with
  | none => none
  | some nq =>
    let rest := dremoveKeys d ["query", "script"]
    match dget d "script" with
    | some (.jobj m) =>
      let (sr, s1) := s.alloc m
      let s2 := s1.write b.extraRef (dupdate (s1.read b.extraRef) rest)
      some ({ b with queryProxied := nq, scriptRef := sr }, s2)
    | some _ => none
    | none =>
      let s2 := s.write b.extraRef (dupdate (s.read b.extraRef) rest)
      some ({ b with queryProxied := nq }, s2)

/-- `from_dict` — construct a fresh instance, then apply `update_from_dict`. -/
def UpdateByQuery.from_dict (dRef : Nat) (s : Store) : Option (UpdateByQuery × Store) :=
  let (u, s1) := UpdateByQuery.init s
  u.update_from_dict dRef s1

/-- The body built by `to_dict` before extras and caller keywords are merged
in: `"query"` when a query is held, then `"script"` when the script mapping is
non-empty. -/
def UpdateByQuery.baseBody (b : UpdateByQuery) (s : Store) : JDict :=
  (match b.queryProxied with
   | some qn => [("query", qn.toDict)]
   | none => []) ++
  (if (s.read b.scriptRef).isEmpty then [] else [("script", JVal.jobj (s.read b.scriptRef))])

/-- `to_dict` — build a fresh dictionary: `"query"` when the proxy holds a
query, `"script"` when the script mapping is non-empty, then `d.update` of the
extras and of the caller-supplied keyword arguments (the source applies
`recursive_to_dict` to both; on plain data it is the identity, modelled so per
spec section 4.3). -/
def UpdateByQuery.to_dict (b : UpdateByQuery) (kwargs : JDict) (s : Store) : JDict :=
  dupdate (dupdate (b.baseBody s) (s.read b.extraRef)) kwargs

/-- Modelled from the spec: the transport collaborator — a named-connection
lookup giving an `update_by_query(index, body, **params)` operation that
returns a raw reply or fails (spec section 6). -/
abbrev Transport := String → Option String → JDict → JDict → Except String JDict

/-- `execute` — look up the connection by name, call its update-by-query
operation with the target index, the serialized body and the extra call
parameters, and wrap the raw reply in the configured response class, caching
it on the instance (`self._response = self._response_class(self, ...)`).  A
transport failure propagates and the assignment never happens. -/
def UpdateByQuery.execute (b : UpdateByQuery) (tr : Transport) (s : Store) :
    Except String UbqResponse × (UpdateByQuery × Store) :=
  match tr b.usingConn b.index (b.to_dict [] s) b.params with
  | .error e => (.error e, (b, s))
  | .ok raw =>
    let resp : UbqResponse := ⟨b.respClass, b.bid, raw⟩
    (.ok resp, ({ b with response := some resp }, s))

/-- A builder is valid in a store when its identity and its dictionary
references were all drawn from the store's allocator. -/
def UpdateByQuery.validB (b : UpdateByQuery) (s : Store) : Prop :=
  b.bid < s.nextId ∧ b.scriptRef < s.nextId ∧ b.extraRef < s.nextId

instance (b : UpdateByQuery) (s : Store) : Decidable (b.validB s) := by
  unfold UpdateByQuery.validB
  infer_instance

/-- Whether a node is a `must_not`-only compound whose sole child is itself a
`must_not`-only compound with a single child (the shape on which the
double-negation normalization unwraps twice). -/
def doubleMustNot : QueryNode → Bool
  | .boolq [] [] [] [.boolq [] [] [] [_]] => true
  | _ => false

/-- Whether a cell with the given reference exists in the heap. -/
def hasCell : List (Nat × JDict) → Nat → Bool
  | [], _ => false
  | (r1, _) :: rest, r => r1 = r || hasCell rest r

/-- Whether an optional held query is well-formed (an unset query trivially
is). -/
def wfqOpt : Option QueryNode → Bool
  | none => true
  | some qn => qn.wfq

/-- The builder states produced by the public API: the held query (if any) was
built by `Q`/`combine`/`negate`/parsing and so is well-formed, and the extras
mapping is a Python dictionary (unique keys) that never contains the popped
wire keys `"query"`/`"script"` (both are removed before extras are stored). -/
def GoodB (b : UpdateByQuery) (s : Store) : Prop :=
  wfqOpt b.queryProxied = true
  ∧ "query" ∉ dkeys (s.read b.extraRef)
  ∧ "script" ∉ dkeys (s.read b.extraRef)
  ∧ (dkeys (s.read b.extraRef)).Nodup

instance (b : UpdateByQuery) (s : Store) : Decidable (GoodB b s) := by
  unfold GoodB
  infer_instance

/-- C1: round-trip law — for every API-constructible builder (held query
well-formed, extras a proper dictionary without the popped wire keys),
`from_dict(b.to_dict())` succeeds and reconstructs a builder whose query,
script mapping and extras mapping are structurally equal to those of `b`;
addressing/config fields are outside the guarantee. -/

theorem dget_dinsert_self (d : JDict) (k : String) (v : JVal) :
    dget (dinsert d k v) k = some v := by
  induction d with
  | nil => simp [dget, dinsert]
  | cons p rest ih =>
    obtain ⟨k1, v1⟩ := p
    by_cases h : k1 = k
    · simp [dinsert, dget, h]
    · simp [dinsert, dget, h, ih]

theorem dget_dinsert_ne (d : JDict) (k : String) (v : JVal) (k' : String) (h : k ≠ k') :
    dget (dinsert d k v) k' = dget d k' := by
  induction d with
  | nil => simp [dget, dinsert, h]
  | cons p rest ih =>
    obtain ⟨k1, v1⟩ := p
    by_cases h1 : k1 = k
    · subst h1
      simp [dinsert, dget, h]
    · simp only [dinsert, if_neg h1, dget]
      by_cases h2 : k1 = k'
      · simp [h2]
      · simp [h2, ih]

theorem dkeys_nil : dkeys [] = [] := rfl

theorem dkeys_cons (k : String) (v : JVal) (d : JDict) :
    dkeys ((k, v) :: d) = k :: dkeys d := rfl

theorem dkeys_append (d1 d2 : JDict) : dkeys (d1 ++ d2) = dkeys d1 ++ dkeys d2 := by
  simp [dkeys]

theorem dget_eq_none_of_not_mem (d : JDict) (k : String) (h : k ∉ dkeys d) :
    dget d k = none := by
  induction d with
  | nil => rfl
  | cons p rest ih =>
    obtain ⟨k1, v1⟩ := p
    simp only [dkeys_cons, List.mem_cons] at h
    push_neg at h
    simp only [dget, if_neg (fun hh : k1 = k => h.1 hh.symm)]
    exact ih h.2

theorem dinsert_cons_eq (k : String) (v1 v : JVal) (rest : JDict) :
    dinsert ((k, v1) :: rest) k v = (k, v) :: rest := by
  simp [dinsert]

theorem dinsert_cons_ne (k1 : String) (v1 : JVal) (k : String) (v : JVal) (rest : JDict)
    (h : k1 ≠ k) : dinsert ((k1, v1) :: rest) k v = (k1, v1) :: dinsert rest k v := by
  simp [dinsert, h]

theorem mem_dkeys_dinsert (d : JDict) (k : String) (v : JVal) (k' : String) :
    k' ∈ dkeys (dinsert d k v) ↔ k' ∈ dkeys d ∨ k' = k := by
  induction d with
  | nil => simp [dinsert, dkeys]
  | cons p rest ih =>
    obtain ⟨k1, v1⟩ := p
    by_cases h : k1 = k
    · subst h
      rw [dinsert_cons_eq]
      simp only [dkeys_cons, List.mem_cons]
      tauto
    · rw [dinsert_cons_ne _ _ _ _ _ h]
      simp only [dkeys_cons, List.mem_cons]
      rw [ih]
      tauto

theorem mem_dkeys_dupdate (d kvs : JDict) (k : String) :
    k ∈ dkeys (dupdate d kvs) ↔ k ∈ dkeys d ∨ k ∈ dkeys kvs := by
  induction kvs generalizing d with
  | nil => simp [dupdate, dkeys_nil]
  | cons p rest ih =>
    obtain ⟨k1, v1⟩ := p
    simp only [dupdate, dkeys_cons, List.mem_cons]
    rw [ih, mem_dkeys_dinsert]
    tauto

theorem dget_dupdate_notin (d kvs : JDict) (k : String) (h : k ∉ dkeys kvs) :
    dget (dupdate d kvs) k = dget d k := by
  induction kvs generalizing d with
  | nil => rfl
  | cons p rest ih =>
    obtain ⟨k1, v1⟩ := p
    simp only [dkeys_cons, List.mem_cons] at h
    push_neg at h
    simp only [dupdate]
    rw [ih _ h.2, dget_dinsert_ne _ _ _ _ (fun hh => h.1 hh.symm)]

theorem dget_dupdate (d kvs : JDict) (k : String) (h : (dkeys kvs).Nodup) :
    dget (dupdate d kvs) k = orO (dget kvs k) (dget d k) := by
  induction kvs generalizing d with
  | nil => simp [dupdate, dget, orO]
  | cons p rest ih =>
    obtain ⟨k1, v1⟩ := p
    simp only [dkeys_cons, List.nodup_cons] at h
    by_cases hk : k1 = k
    · subst hk
      simp only [dupdate, dget, if_pos rfl]
      rw [ih _ h.2, dget_eq_none_of_not_mem rest k1 h.1]
      simp [orO, dget_dinsert_self]
    · simp only [dupdate, dget, if_neg hk]
      rw [ih _ h.2, dget_dinsert_ne _ _ _ _ hk]

theorem dinsert_notin (d : JDict) (k : String) (v : JVal) (h : k ∉ dkeys d) :
    dinsert d k v = d ++ [(k, v)] := by
  induction d with
  | nil => rfl
  | cons p rest ih =>
    obtain ⟨k1, v1⟩ := p
    simp only [dkeys_cons, List.mem_cons] at h
    push_neg at h
    simp only [dinsert, if_neg (fun hh : k1 = k => h.1 hh.symm)]
    rw [ih h.2]
    simp

theorem dupdate_disjoint (d kvs : JDict) (h1 : (dkeys kvs).Nodup)
    (h2 : ∀ k ∈ dkeys kvs, k ∉ dkeys d) : dupdate d kvs = d ++ kvs := by
  induction kvs generalizing d with
  | nil => simp [dupdate]
  | cons p rest ih =>
    obtain ⟨k1, v1⟩ := p
    simp only [dkeys_cons, List.nodup_cons] at h1
    simp only [dupdate]
    rw [dinsert_notin _ _ _ (h2 k1 (by simp [dkeys_cons]))]
    have hside : ∀ k ∈ dkeys rest, k ∉ dkeys (d ++ [(k1, v1)]) := by
      intro k hk
      have hne : k ≠ k1 := fun hkk => h1.1 (hkk ▸ hk)
      rw [dkeys_append, List.mem_append]
      push_neg
      exact ⟨h2 k (by simp [dkeys_cons, hk]), by simp [dkeys_cons, dkeys_nil, hne]⟩
    rw [ih (d ++ [(k1, v1)]) h1.2 hside]
    simp

theorem readCells_cons_ne (r1 : Nat) (d : JDict) (cs : List (Nat × JDict)) (r : Nat)
    (h : r1 ≠ r) : readCells ((r1, d) :: cs) r = readCells cs r := by
  simp [readCells, h]

theorem readCells_setCell_ne (cs : List (Nat × JDict)) (r : Nat) (d : JDict) (r' : Nat)
    (h : r ≠ r') : readCells (setCell cs r d) r' = readCells cs r' := by
  induction cs with
  | nil => simp [setCell]
  | cons p rest ih =>
    obtain ⟨r1, d1⟩ := p
    by_cases h1 : r1 = r
    · subst h1
      simp [setCell, readCells, h]
    · simp only [setCell, if_neg h1, readCells]
      by_cases h2 : r1 = r'
      · simp [h2]
      · simp [h2, ih]

theorem UpdateByQuery.clone_eq (b : UpdateByQuery) (s : Store) :
    b.clone s =
      (⟨s.nextId, b.queryProxied, s.nextId + 2, s.nextId + 1, b.respClass, b.index,
        b.usingConn, b.params, none⟩,
       ⟨s.nextId + 3, (s.nextId + 2, s.read b.scriptRef) ::
        (s.nextId + 1, s.read b.extraRef) :: s.cells⟩) := rfl

theorem UpdateByQuery.init_eq (s : Store) :
    UpdateByQuery.init s =
      (⟨s.nextId, none, s.nextId + 2, s.nextId + 1, updateByQueryResponseCls, none,
        "default", [], none⟩,
       ⟨s.nextId + 3, (s.nextId + 2, []) :: (s.nextId + 1, []) :: s.cells⟩) := rfl

theorem UpdateByQuery.filter_eq (b : UpdateByQuery) (qn : QueryNode) (s : Store) :
    b.filter qn s =
      (⟨s.nextId,
        some (match b.queryProxied with
              | none => QueryNode.boolq [] [qn] [] []
              | some cur => combine cur (.boolq [] [qn] [] [])),
        s.nextId + 2, s.nextId + 1, b.respClass, b.index, b.usingConn, b.params, none⟩,
       ⟨s.nextId + 3, (s.nextId + 2, s.read b.scriptRef) ::
        (s.nextId + 1, s.read b.extraRef) :: s.cells⟩) := rfl

theorem UpdateByQuery.exclude_eq (b : UpdateByQuery) (qn : QueryNode) (s : Store) :
    b.exclude qn s =
      (⟨s.nextId,
        some (match b.queryProxied with
              | none => QueryNode.boolq [] [negate qn] [] []
              | some cur => combine cur (.boolq [] [negate qn] [] [])),
        s.nextId + 2, s.nextId + 1, b.respClass, b.index, b.usingConn, b.params, none⟩,
       ⟨s.nextId + 3, (s.nextId + 2, s.read b.scriptRef) ::
        (s.nextId + 1, s.read b.extraRef) :: s.cells⟩) := rfl

theorem UpdateByQuery.response_class_eq (b : UpdateByQuery) (cls : Nat) (s : Store) :
    b.response_class cls s =
      (⟨s.nextId, b.queryProxied, s.nextId + 2, s.nextId + 1, cls, b.index,
        b.usingConn, b.params, none⟩,
       ⟨s.nextId + 3, (s.nextId + 2, s.read b.scriptRef) ::
        (s.nextId + 1, s.read b.extraRef) :: s.cells⟩) := rfl


theorem UpdateByQuery.script_eq (b : UpdateByQuery) (kwargs : JDict) (s : Store) :
    b.script kwargs s =
      if (s.read b.scriptRef).isEmpty then
        (⟨s.nextId, b.queryProxied, s.nextId + 2, s.nextId + 1, b.respClass, b.index,
          b.usingConn, b.params, none⟩,
         ⟨s.nextId + 3,
          (s.nextId + 2, dupdate (s.read b.scriptRef) kwargs) ::
          (s.nextId + 1, s.read b.extraRef) :: s.cells⟩)
      else
        (⟨s.nextId, b.queryProxied, s.nextId + 3, s.nextId + 1, b.respClass, b.index,
          b.usingConn, b.params, none⟩,
         ⟨s.nextId + 4,
          (s.nextId + 3, dupdate [] kwargs) ::
          (s.nextId + 2, s.read b.scriptRef) ::
          (s.nextId + 1, s.read b.extraRef) :: s.cells⟩) := by
  by_cases hemp : (s.read b.scriptRef).isEmpty
  · rw [if_pos hemp]
    simp only [Store.read] at hemp
    simp only [UpdateByQuery.script, UpdateByQuery.clone_eq, Store.read, Store.alloc,
               Store.write, Store.freshId]
    simp [readCells, setCell, hemp]
  · rw [if_neg hemp]
    simp only [Store.read] at hemp
    simp only [UpdateByQuery.script, UpdateByQuery.clone_eq, Store.read, Store.alloc,
               Store.write, Store.freshId]
    simp [readCells, setCell, hemp]

theorem read_cons2_lt (n : Nat) (d1 d2 : JDict) (cs : List (Nat × JDict)) (r : Nat)
    (h : r < n) :
    readCells ((n + 2, d1) :: (n + 1, d2) :: cs) r = readCells cs r := by
  rw [readCells_cons_ne _ _ _ _ (by omega), readCells_cons_ne _ _ _ _ (by omega)]

theorem UpdateByQuery.to_dict_congr (b : UpdateByQuery) (kwargs : JDict) (s s' : Store)
    (h1 : s'.read b.scriptRef = s.read b.scriptRef)
    (h2 : s'.read b.extraRef = s.read b.extraRef) :
    b.to_dict kwargs s' = b.to_dict kwargs s := by
  unfold UpdateByQuery.to_dict UpdateByQuery.baseBody
  rw [h1, h2]

theorem read_clone_store (b : UpdateByQuery) (s : Store) (r : Nat) (h : r < s.nextId) :
    (b.clone s).2.read r = s.read r := by
  rw [UpdateByQuery.clone_eq]
  show readCells _ r = _
  exact read_cons2_lt _ _ _ _ _ h

theorem read_script_store (b : UpdateByQuery) (kwargs : JDict) (s : Store) (r : Nat)
    (h : r < s.nextId) :
    (b.script kwargs s).2.read r = s.read r := by
  rw [UpdateByQuery.script_eq]
  split
  · show readCells _ r = _
    exact read_cons2_lt _ _ _ _ _ h
  · show readCells _ r = _
    rw [readCells_cons_ne _ _ _ _ (by omega)]
    exact read_cons2_lt _ _ _ _ _ h

theorem read_script_result (b : UpdateByQuery) (kwargs : JDict) (s : Store) :
    (b.script kwargs s).2.read (b.script kwargs s).1.scriptRef = dupdate [] kwargs := by
  rw [UpdateByQuery.script_eq]
  split
  · next hemp =>
    show readCells _ _ = _
    rw [List.isEmpty_iff.mp hemp]
    simp [readCells]
  · show readCells _ _ = _
    simp [readCells]

/-- C3: a later `script(...)` call fully replaces any previously held script
mapping — the resulting mapping is exactly the supplied keyword set applied to
an empty dictionary, independent of what was held before; in particular
`script(a=1)` followed by `script(b=2)` yields a builder whose script mapping
is exactly `{"b": 2}`. -/
theorem script_replaces_not_merges (s : Store) (b : UpdateByQuery) (kw1 kw2 : JDict) :
    ((b.script kw1 s).1.script kw2 (b.script kw1 s).2).2.read
        ((b.script kw1 s).1.script kw2 (b.script kw1 s).2).1.scriptRef
      = dupdate [] kw2
    ∧ ((b.script [("a", JVal.jnum 1)] s).1.script [("b", JVal.jnum 2)]
          (b.script [("a", JVal.jnum 1)] s).2).2.read
        ((b.script [("a", JVal.jnum 1)] s).1.script [("b", JVal.jnum 2)]
          (b.script [("a", JVal.jnum 1)] s).2).1.scriptRef
      = [("b", JVal.jnum 2)] :=
  ⟨read_script_result _ _ _, by rw [read_script_result]; rfl⟩

/-- C5: starting from an empty builder, `UpdateByQuery().exclude("term",
archived=True).to_dict()` produces exactly
`{"query": {"bool": {"filter": [{"bool": {"must_not": [{"term": {"archived":
true}}]}}]}}}`. -/
theorem exclude_scenario :
    (((UpdateByQuery.init ⟨0, []⟩).1.exclude (.leaf "term" [("archived", .jbool true)])
        (UpdateByQuery.init ⟨0, []⟩).2).1.to_dict []
      ((UpdateByQuery.init ⟨0, []⟩).1.exclude (.leaf "term" [("archived", .jbool true)])
        (UpdateByQuery.init ⟨0, []⟩).2).2) =
    [("query", .jobj [("bool", .jobj [("filter", .jarr [
       .jobj [("bool", .jobj [("must_not", .jarr [
         .jobj [("term", .jobj [("archived", .jbool true)])]])])]])])])] := rfl

/-- C7 counterexample: `negate` is not an involution on every query node — on
a node that is already a doubly-wrapped `must_not` compound, two negations
strip both wrappers and return the innermost child, not the original node. -/
theorem negate_negate_counterexample :
    negate (negate (QueryNode.boolq [] [] [] [QueryNode.boolq [] [] [] [
        QueryNode.leaf "term" [("id", JVal.jnum 1)]]]))
      ≠ QueryNode.boolq [] [] [] [QueryNode.boolq [] [] [] [
        QueryNode.leaf "term" [("id", JVal.jnum 1)]]] := by
  simp [negate]

/-- C7 amended: for every query node that is not a doubly-wrapped `must_not`
compound (in particular, for every node produced by `Q`, `filter`, `exclude`
or `negate` itself), `negate (negate q)` is structurally equal to `q`. -/
theorem negate_negate_eq_of_not_doubleMustNot (q : QueryNode)
    (h : doubleMustNot q = false) : negate (negate q) = q := by
  match q, h with
  | .leaf k p, _ => rfl
  | .boolq (a :: ms) f sh mn, _ => rfl
  | .boolq [] (a :: fs) sh mn, _ => rfl
  | .boolq [] [] (a :: shs) mn, _ => rfl
  | .boolq [] [] [] [], _ => rfl
  | .boolq [] [] [] (c1 :: c2 :: cs), _ => rfl
  | .boolq [] [] [] [QueryNode.leaf k p], _ => rfl
  | .boolq [] [] [] [QueryNode.boolq (a :: ms) f sh mn], _ => rfl
  | .boolq [] [] [] [QueryNode.boolq [] (a :: fs) sh mn], _ => rfl
  | .boolq [] [] [] [QueryNode.boolq [] [] (a :: shs) mn], _ => rfl
  | .boolq [] [] [] [QueryNode.boolq [] [] [] []], _ => rfl
  | .boolq [] [] [] [QueryNode.boolq [] [] [] (c1 :: c2 :: cs)], _ => rfl
  | .boolq [] [] [] [QueryNode.boolq [] [] [] [x]], h => simp [doubleMustNot] at h

/-- C7 amended witness: the double-negation law applied at a concrete leaf
query. -/
theorem negate_negate_witness :
    doubleMustNot (QueryNode.leaf "term" [("published", JVal.jbool true)]) = false
    ∧ negate (negate (QueryNode.leaf "term" [("published", JVal.jbool true)]))
      = QueryNode.leaf "term" [("published", JVal.jbool true)] :=
  ⟨rfl, negate_negate_eq_of_not_doubleMustNot _ rfl⟩

/-- C2: each mutator among `filter`, `exclude`, `script` and `response_class`
returns a new builder instance (fresh identity, fresh script and extras
dictionaries — no aliasing with the receiver) and leaves the receiver
unchanged: the receiver's `to_dict` output over the resulting store equals its
output over the original store. -/
theorem mutators_return_new_instance_and_leave_receiver_unchanged
    (s : Store) (b : UpdateByQuery) (hv : b.validB s)
    (qn : QueryNode) (kwargs k : JDict) (cls : Nat) :
    ((b.filter qn s).1.bid ≠ b.bid ∧ (b.filter qn s).1.scriptRef ≠ b.scriptRef ∧
      (b.filter qn s).1.extraRef ≠ b.extraRef ∧
      b.to_dict k (b.filter qn s).2 = b.to_dict k s)
    ∧ ((b.exclude qn s).1.bid ≠ b.bid ∧ (b.exclude qn s).1.scriptRef ≠ b.scriptRef ∧
      (b.exclude qn s).1.extraRef ≠ b.extraRef ∧
      b.to_dict k (b.exclude qn s).2 = b.to_dict k s)
    ∧ ((b.script kwargs s).1.bid ≠ b.bid ∧ (b.script kwargs s).1.scriptRef ≠ b.scriptRef ∧
      (b.script kwargs s).1.extraRef ≠ b.extraRef ∧
      b.to_dict k (b.script kwargs s).2 = b.to_dict k s)
    ∧ ((b.response_class cls s).1.bid ≠ b.bid ∧
      (b.response_class cls s).1.scriptRef ≠ b.scriptRef ∧
      (b.response_class cls s).1.extraRef ≠ b.extraRef ∧
      b.to_dict k (b.response_class cls s).2 = b.to_dict k s) := by
  obtain ⟨h1, h2, h3⟩ := hv
  refine ⟨⟨?_, ?_, ?_, ?_⟩, ⟨?_, ?_, ?_, ?_⟩, ⟨?_, ?_, ?_, ?_⟩, ⟨?_, ?_, ?_, ?_⟩⟩
  · simp only [UpdateByQuery.filter_eq]
    omega
  · simp only [UpdateByQuery.filter_eq]
    omega
  · simp only [UpdateByQuery.filter_eq]
    omega
  · exact UpdateByQuery.to_dict_congr b k s _ (read_clone_store b s b.scriptRef h2)
      (read_clone_store b s b.extraRef h3)
  · simp only [UpdateByQuery.exclude_eq]
    omega
  · simp only [UpdateByQuery.exclude_eq]
    omega
  · simp only [UpdateByQuery.exclude_eq]
    omega
  · exact UpdateByQuery.to_dict_congr b k s _ (read_clone_store b s b.scriptRef h2)
      (read_clone_store b s b.extraRef h3)
  · rw [UpdateByQuery.script_eq]
    split <;> simp <;> omega
  · rw [UpdateByQuery.script_eq]
    split <;> simp <;> omega
  · rw [UpdateByQuery.script_eq]
    split <;> simp <;> omega
  · exact UpdateByQuery.to_dict_congr b k s _ (read_script_store b kwargs s b.scriptRef h2)
      (read_script_store b kwargs s b.extraRef h3)
  · simp only [UpdateByQuery.response_class_eq]
    omega
  · simp only [UpdateByQuery.response_class_eq]
    omega
  · simp only [UpdateByQuery.response_class_eq]
    omega
  · exact UpdateByQuery.to_dict_congr b k s _ (read_clone_store b s b.scriptRef h2)
      (read_clone_store b s b.extraRef h3)

/-- C2 witness: the cloning law applied to a freshly constructed builder. -/
theorem mutators_witness :
    (UpdateByQuery.init ⟨0, []⟩).1.validB (UpdateByQuery.init ⟨0, []⟩).2
    ∧ ((UpdateByQuery.init ⟨0, []⟩).1.filter (.leaf "term" [])
        (UpdateByQuery.init ⟨0, []⟩).2).1.bid ≠ (UpdateByQuery.init ⟨0, []⟩).1.bid :=
  ⟨by decide,
   (mutators_return_new_instance_and_leave_receiver_unchanged
      (UpdateByQuery.init ⟨0, []⟩).2 (UpdateByQuery.init ⟨0, []⟩).1 (by decide)
      (.leaf "term" []) [] [] 7).1.1⟩

theorem mem_dkeys_baseBody (b : UpdateByQuery) (s : Store) (key : String)
    (h : key ∈ dkeys (b.baseBody s)) : key = "query" ∨ key = "script" := by
  unfold UpdateByQuery.baseBody at h
  rw [dkeys_append, List.mem_append] at h
  rcases h with h | h
  · left
    cases hqp : b.queryProxied with
    | none => rw [hqp] at h; simp [dkeys] at h
    | some qn => rw [hqp] at h; simpa [dkeys_cons, dkeys_nil] using h
  · right
    split at h
    · simp [dkeys] at h
    · simpa [dkeys_cons, dkeys_nil] using h

/-- C9: calling `script()` with no keyword arguments on a builder whose script
mapping is non-empty yields a builder whose script mapping is empty, and the
`"script"` key is absent from that builder's `to_dict()` output. -/
theorem empty_script_call_erases (s : Store) (b : UpdateByQuery)
    (hs : (s.read b.scriptRef).isEmpty = false)
    (he : "script" ∉ dkeys (s.read b.extraRef)) :
    (b.script [] s).2.read (b.script [] s).1.scriptRef = []
    ∧ "script" ∉ dkeys ((b.script [] s).1.to_dict [] (b.script [] s).2) := by
  have hread : (b.script [] s).2.read (b.script [] s).1.scriptRef = [] := by
    rw [read_script_result]
    rfl
  have hcond : ¬ ((s.read b.scriptRef).isEmpty = true) := by simp [hs]
  have hextra : (b.script [] s).2.read (b.script [] s).1.extraRef = s.read b.extraRef := by
    rw [UpdateByQuery.script_eq, if_neg hcond]
    show readCells ((s.nextId + 3, dupdate [] []) :: (s.nextId + 2, s.read b.scriptRef) ::
        (s.nextId + 1, s.read b.extraRef) :: s.cells) (s.nextId + 1) = s.read b.extraRef
    rw [readCells_cons_ne _ _ _ _ (by omega), readCells_cons_ne _ _ _ _ (by omega)]
    simp [readCells]
  have hq : (b.script [] s).1.queryProxied = b.queryProxied := by
    rw [UpdateByQuery.script_eq]
    split <;> rfl
  have hbase : (b.script [] s).1.baseBody (b.script [] s).2
      = (match b.queryProxied with
         | some qn => [("query", qn.toDict)]
         | none => []) := by
    unfold UpdateByQuery.baseBody
    rw [hq, hread]
    simp [List.isEmpty]
  refine ⟨hread, fun hmem => ?_⟩
  unfold UpdateByQuery.to_dict at hmem
  rw [hextra, hbase] at hmem
  rcases (mem_dkeys_dupdate _ _ _).mp hmem with hmem1 | hnil
  · rcases (mem_dkeys_dupdate _ _ _).mp hmem1 with hb | hex
    · cases hqp : b.queryProxied with
      | none => rw [hqp] at hb; simp [dkeys] at hb
      | some qn => rw [hqp] at hb; simp [dkeys_cons, dkeys_nil] at hb
    · exact he hex
  · simp [dkeys] at hnil

/-- C9 witness: erasing the script of a builder that holds one. -/
theorem empty_script_call_witness :
    ((((UpdateByQuery.init ⟨0, []⟩).1.script [("source", JVal.jstr "x")]
        (UpdateByQuery.init ⟨0, []⟩).2).2.read
      ((UpdateByQuery.init ⟨0, []⟩).1.script [("source", JVal.jstr "x")]
        (UpdateByQuery.init ⟨0, []⟩).2).1.scriptRef).isEmpty = false)
    ∧ (((UpdateByQuery.init ⟨0, []⟩).1.script [("source", JVal.jstr "x")]
          (UpdateByQuery.init ⟨0, []⟩).2).1.script []
        ((UpdateByQuery.init ⟨0, []⟩).1.script [("source", JVal.jstr "x")]
          (UpdateByQuery.init ⟨0, []⟩).2).2).2.read
      (((UpdateByQuery.init ⟨0, []⟩).1.script [("source", JVal.jstr "x")]
          (UpdateByQuery.init ⟨0, []⟩).2).1.script []
        ((UpdateByQuery.init ⟨0, []⟩).1.script [("source", JVal.jstr "x")]
          (UpdateByQuery.init ⟨0, []⟩).2).2).1.scriptRef = [] :=
  ⟨by decide,
   (empty_script_call_erases _ _ (by decide) (by decide)).1⟩

/-- C10: `to_dict` is a pure read — a caller-supplied keyword appears in the
output of the call it was passed to, but is not persisted on the builder: a
subsequent `to_dict()` with no arguments over the same state does not contain
it (unless the key was already part of the builder's own state). -/
theorem to_dict_is_pure_read (s : Store) (b : UpdateByQuery) (kw : JDict) (key : String)
    (hkw : key ∈ dkeys kw) (hq : key ≠ "query") (hs : key ≠ "script")
    (he : key ∉ dkeys (s.read b.extraRef)) :
    key ∈ dkeys (b.to_dict kw s) ∧ key ∉ dkeys (b.to_dict [] s) := by
  constructor
  · unfold UpdateByQuery.to_dict
    exact (mem_dkeys_dupdate _ _ _).mpr (Or.inr hkw)
  · intro hmem
    unfold UpdateByQuery.to_dict at hmem
    rcases (mem_dkeys_dupdate _ _ _).mp hmem with hmem1 | hnil
    · rcases (mem_dkeys_dupdate _ _ _).mp hmem1 with hb | hex
      · rcases mem_dkeys_baseBody b s key hb with h | h
        · exact hq h
        · exact hs h
      · exact he hex
    · simp [dkeys] at hnil

/-- C10 witness: a keyword passed to `to_dict` shows up once and is not
persisted. -/
theorem to_dict_is_pure_read_witness :
    "slices" ∈ dkeys ((UpdateByQuery.init ⟨0, []⟩).1.to_dict [("slices", JVal.jnum 5)]
        (UpdateByQuery.init ⟨0, []⟩).2)
    ∧ "slices" ∉ dkeys ((UpdateByQuery.init ⟨0, []⟩).1.to_dict []
        (UpdateByQuery.init ⟨0, []⟩).2) :=
  to_dict_is_pure_read _ _ [("slices", JVal.jnum 5)] "slices"
    (by decide) (by decide) (by decide) (by decide)

/-- C4: `to_dict` emits `"query"` in its base body exactly when a query is
held and `"script"` exactly when the script mapping is non-empty, and the
output resolves every key by precedence: caller-supplied keywords first, then
the extras mapping, then the base body. -/
theorem to_dict_emission_and_precedence (s : Store) (b : UpdateByQuery) (kw : JDict)
    (hkw : (dkeys kw).Nodup) (hex : (dkeys (s.read b.extraRef)).Nodup) :
    (∀ key, dget (b.to_dict kw s) key
        = orO (dget kw key) (orO (dget (s.read b.extraRef) key) (dget (b.baseBody s) key)))
    ∧ ("query" ∈ dkeys (b.baseBody s) ↔ b.queryProxied.isSome = true)
    ∧ ("script" ∈ dkeys (b.baseBody s) ↔ (s.read b.scriptRef).isEmpty = false) := by
  refine ⟨fun key => ?_, ?_, ?_⟩
  · unfold UpdateByQuery.to_dict
    rw [dget_dupdate _ _ _ hkw, dget_dupdate _ _ _ hex]
  · unfold UpdateByQuery.baseBody
    rw [dkeys_append, List.mem_append]
    cases b.queryProxied with
    | none =>
      constructor
      · intro h
        rcases h with h | h
        · simp [dkeys] at h
        · split at h
          · simp [dkeys] at h
          · simp [dkeys_cons, dkeys_nil] at h
      · intro h
        simp at h
    | some qn =>
      constructor
      · intro _
        rfl
      · intro _
        left
        simp [dkeys_cons]
  · unfold UpdateByQuery.baseBody
    rw [dkeys_append, List.mem_append]
    constructor
    · intro h
      rcases h with h | h
      · cases hqp : b.queryProxied with
        | none => rw [hqp] at h; simp [dkeys] at h
        | some qn => rw [hqp] at h; simp [dkeys_cons, dkeys_nil] at h
      · split at h
        · simp [dkeys] at h
        · next hc => simpa using hc
    · intro h
      right
      rw [if_neg (by simp [h])]
      simp [dkeys_cons]

/-- C4 witness: the emission facts at a freshly constructed builder carrying a
script. -/
theorem to_dict_emission_witness :
    ("script" ∈ dkeys (((UpdateByQuery.init ⟨0, []⟩).1.script [("source", JVal.jstr "x")]
        (UpdateByQuery.init ⟨0, []⟩).2).1.baseBody
      ((UpdateByQuery.init ⟨0, []⟩).1.script [("source", JVal.jstr "x")]
        (UpdateByQuery.init ⟨0, []⟩).2).2)
      ↔ ((((UpdateByQuery.init ⟨0, []⟩).1.script [("source", JVal.jstr "x")]
        (UpdateByQuery.init ⟨0, []⟩).2).2.read
      ((UpdateByQuery.init ⟨0, []⟩).1.script [("source", JVal.jstr "x")]
        (UpdateByQuery.init ⟨0, []⟩).2).1.scriptRef).isEmpty = false)) :=
  (to_dict_emission_and_precedence _ _ [] (by decide) (by decide)).2.2

/-- C8: if the transport's update-by-query call fails, `execute` propagates
that error unchanged and the builder and store — including the absence of a
cached response — are exactly as before; on success it wraps the raw reply in
the configured response class and caches it on the instance. -/
theorem execute_propagates_errors_and_caches_response
    (b : UpdateByQuery) (tr : Transport) (s : Store) :
    (∀ e, tr b.usingConn b.index (b.to_dict [] s) b.params = .error e →
      b.execute tr s = (.error e, (b, s)))
    ∧ (∀ raw, tr b.usingConn b.index (b.to_dict [] s) b.params = .ok raw →
      b.execute tr s =
        (.ok ⟨b.respClass, b.bid, raw⟩,
         ({ b with response := some ⟨b.respClass, b.bid, raw⟩ }, s))) := by
  constructor
  · intro e h
    unfold UpdateByQuery.execute
    rw [h]
  · intro raw h
    unfold UpdateByQuery.execute
    rw [h]

/-- C8 witness: a failing transport's error comes back unchanged with the
builder untouched, and a succeeding transport's reply is wrapped. -/
theorem execute_witness :
    ((UpdateByQuery.init ⟨0, []⟩).1.execute (fun _ _ _ _ => Except.error "boom")
        (UpdateByQuery.init ⟨0, []⟩).2
      = (.error "boom", ((UpdateByQuery.init ⟨0, []⟩).1, (UpdateByQuery.init ⟨0, []⟩).2)))
    ∧ ((UpdateByQuery.init ⟨0, []⟩).1.execute (fun _ _ _ _ => Except.ok [("took", JVal.jnum 3)])
        (UpdateByQuery.init ⟨0, []⟩).2).1
      = .ok ⟨(UpdateByQuery.init ⟨0, []⟩).1.respClass, (UpdateByQuery.init ⟨0, []⟩).1.bid,
             [("took", JVal.jnum 3)]⟩ :=
  ⟨(execute_propagates_errors_and_caches_response _ _ _).1 "boom" rfl,
   congrArg Prod.fst
     ((execute_propagates_errors_and_caches_response _ _ _).2 [("took", JVal.jnum 3)] rfl)⟩

theorem readCells_setCell_self (cs : List (Nat × JDict)) (r : Nat) (d : JDict)
    (h : hasCell cs r = true) : readCells (setCell cs r d) r = d := by
  induction cs with
  | nil => simp [hasCell] at h
  | cons p rest ih =>
    obtain ⟨r1, d1⟩ := p
    by_cases h1 : r1 = r
    · subst h1
      simp [setCell, readCells]
    · simp only [hasCell, h1, decide_False, Bool.false_or] at h
      simp only [setCell, if_neg h1, readCells, if_neg h1]
      exact ih h

/-- Characterization of a successful `update_from_dict` call: the caller's
mapping reads back unchanged, the instance is the same, `"query"` is parsed
when present, `"script"` is stored verbatim when present, and the remaining
keys merge into the extras dictionary in place. -/
theorem update_from_dict_char
    (s : Store) (b : UpdateByQuery) (dRef : Nat) (b2 : UpdateByQuery) (s2 : Store)
    (hv : b.validB s) (hd : dRef < s.nextId) (hne : dRef ≠ b.extraRef)
    (hss : b.scriptRef ≠ b.extraRef) (hcell : hasCell s.cells b.extraRef = true)
    (h : b.update_from_dict dRef s = some (b2, s2)) :
    s2.read dRef = s.read dRef
    ∧ b2.bid = b.bid
    ∧ b2.extraRef = b.extraRef
    ∧ s2.read b2.extraRef
        = dupdate (s.read b.extraRef) (dremoveKeys (s.read dRef) ["query", "script"])
    ∧ (dget (s.read dRef) "query" = none → b2.queryProxied = b.queryProxied)
    ∧ (∀ v, dget (s.read dRef) "query" = some v →
        ∃ qn, parseQ v = some qn ∧ b2.queryProxied = some qn)
    ∧ (dget (s.read dRef) "script" = none →
        b2.scriptRef = b.scriptRef ∧ s2.read b2.scriptRef = s.read b.scriptRef)
    ∧ (∀ m, dget (s.read dRef) "script" = some (.jobj m) → s2.read b2.scriptRef = m) := by
  obtain ⟨hb1, hb2, hb3⟩ := hv
  cases hq : dget (s.read dRef) "query" with
  | none =>
    cases hsc : dget (s.read dRef) "script" with
    | none =>
      simp only [UpdateByQuery.update_from_dict, hq, hsc, Option.some.injEq,
                 Prod.mk.injEq] at h
      obtain ⟨h1, h2⟩ := h
      subst h1
      subst h2
      refine ⟨?_, rfl, rfl, ?_, fun _ => rfl, nofun, fun _ => ⟨rfl, ?_⟩, nofun⟩
      · exact readCells_setCell_ne _ _ _ _ (fun hh => hne hh.symm)
      · exact readCells_setCell_self _ _ _ hcell
      · exact readCells_setCell_ne _ _ _ _ (fun hh => hss hh.symm)
    | some v2 =>
      cases v2 with
      | jnull =>
        simp only [UpdateByQuery.update_from_dict, hq, hsc] at h
        exact Option.noConfusion h
      | jbool bb =>
        simp only [UpdateByQuery.update_from_dict, hq, hsc] at h
        exact Option.noConfusion h
      | jnum n =>
        simp only [UpdateByQuery.update_from_dict, hq, hsc] at h
        exact Option.noConfusion h
      | jstr st =>
        simp only [UpdateByQuery.update_from_dict, hq, hsc] at h
        exact Option.noConfusion h
      | jarr xs =>
        simp only [UpdateByQuery.update_from_dict, hq, hsc] at h
        exact Option.noConfusion h
      | jobj m =>
        simp only [UpdateByQuery.update_from_dict, hq, hsc, Option.some.injEq,
                   Prod.mk.injEq] at h
        obtain ⟨h1, h2⟩ := h
        subst h1
        subst h2
        refine ⟨?_, rfl, rfl, ?_, fun _ => rfl, nofun, nofun, ?_⟩
        · show readCells (setCell ((s.nextId, m) :: s.cells) b.extraRef _) dRef = _
          rw [readCells_setCell_ne _ _ _ _ (fun hh => hne hh.symm)]
          exact readCells_cons_ne _ _ _ _ (by omega)
        · show readCells (setCell ((s.nextId, m) :: s.cells) b.extraRef _) b.extraRef = _
          rw [readCells_setCell_self _ _ _ (by simp [hasCell, hcell])]
          show dupdate (readCells ((s.nextId, m) :: s.cells) b.extraRef) _ = _
          rw [readCells_cons_ne _ _ _ _ (by omega)]
          rfl
        · intro m2 hm2
          simp only [Option.some.injEq, JVal.jobj.injEq] at hm2
          subst hm2
          show readCells (setCell ((s.nextId, m) :: s.cells) b.extraRef _) s.nextId = _
          rw [readCells_setCell_ne _ _ _ _ (by omega)]
          simp [readCells]
  | some v =>
    cases hp : parseQ v with
    | none =>
      simp only [UpdateByQuery.update_from_dict, hq, hp] at h
      exact Option.noConfusion h
    | some qn =>
      cases hsc : dget (s.read dRef) "script" with
      | none =>
        simp only [UpdateByQuery.update_from_dict, hq, hp, hsc, Option.some.injEq,
                   Prod.mk.injEq] at h
        obtain ⟨h1, h2⟩ := h
        subst h1
        subst h2
        refine ⟨?_, rfl, rfl, ?_, nofun, ?_, fun _ => ⟨rfl, ?_⟩, nofun⟩
        · exact readCells_setCell_ne _ _ _ _ (fun hh => hne hh.symm)
        · exact readCells_setCell_self _ _ _ hcell
        · intro v' hv'
          injection hv' with hvv
          subst hvv
          exact ⟨qn, hp, rfl⟩
        · exact readCells_setCell_ne _ _ _ _ (fun hh => hss hh.symm)
      | some v2 =>
        cases v2 with
        | jnull =>
          simp only [UpdateByQuery.update_from_dict, hq, hp, hsc] at h
          exact Option.noConfusion h
        | jbool bb =>
          simp only [UpdateByQuery.update_from_dict, hq, hp, hsc] at h
          exact Option.noConfusion h
        | jnum n =>
          simp only [UpdateByQuery.update_from_dict, hq, hp, hsc] at h
          exact Option.noConfusion h
        | jstr st =>
          simp only [UpdateByQuery.update_from_dict, hq, hp, hsc] at h
          exact Option.noConfusion h
        | jarr xs =>
          simp only [UpdateByQuery.update_from_dict, hq, hp, hsc] at h
          exact Option.noConfusion h
        | jobj m =>
          simp only [UpdateByQuery.update_from_dict, hq, hp, hsc, Option.some.injEq,
                     Prod.mk.injEq] at h
          obtain ⟨h1, h2⟩ := h
          subst h1
          subst h2
          refine ⟨?_, rfl, rfl, ?_, nofun, ?_, nofun, ?_⟩
          · show readCells (setCell ((s.nextId, m) :: s.cells) b.extraRef _) dRef = _
            rw [readCells_setCell_ne _ _ _ _ (fun hh => hne hh.symm)]
            exact readCells_cons_ne _ _ _ _ (by omega)
          · show readCells (setCell ((s.nextId, m) :: s.cells) b.extraRef _) b.extraRef = _
            rw [readCells_setCell_self _ _ _ (by simp [hasCell, hcell])]
            show dupdate (readCells ((s.nextId, m) :: s.cells) b.extraRef) _ = _
            rw [readCells_cons_ne _ _ _ _ (by omega)]
            rfl
          · intro v' hv'
            injection hv' with hvv
            subst hvv
            exact ⟨qn, hp, rfl⟩
          · intro m2 hm2
            simp only [Option.some.injEq, JVal.jobj.injEq] at hm2
            subst hm2
            show readCells (setCell ((s.nextId, m) :: s.cells) b.extraRef _) s.nextId = _
            rw [readCells_setCell_ne _ _ _ _ (by omega)]
            simp [readCells]

/-- C6: a successful `update_from_dict(d)` never mutates the caller's mapping
`d` (all pops act on a copy); it parses a present `"query"` value with `Q`,
stores a present `"script"` object verbatim, leaves the popped fields alone
when absent, and merges every remaining key into the instance's extras without
validation — all in place on the same instance. -/
theorem update_from_dict_pops_copies_and_passes_through
    (s : Store) (b : UpdateByQuery) (dRef : Nat) (b2 : UpdateByQuery) (s2 : Store)
    (hv : b.validB s) (hd : dRef < s.nextId) (hne : dRef ≠ b.extraRef)
    (hss : b.scriptRef ≠ b.extraRef) (hcell : hasCell s.cells b.extraRef = true)
    (h : b.update_from_dict dRef s = some (b2, s2)) :
    s2.read dRef = s.read dRef
    ∧ b2.bid = b.bid
    ∧ b2.extraRef = b.extraRef
    ∧ s2.read b2.extraRef
        = dupdate (s.read b.extraRef) (dremoveKeys (s.read dRef) ["query", "script"])
    ∧ (dget (s.read dRef) "query" = none → b2.queryProxied = b.queryProxied)
    ∧ (∀ v, dget (s.read dRef) "query" = some v →
        ∃ qn, parseQ v = some qn ∧ b2.queryProxied = some qn)
    ∧ (dget (s.read dRef) "script" = none →
        b2.scriptRef = b.scriptRef ∧ s2.read b2.scriptRef = s.read b.scriptRef)
    ∧ (∀ m, dget (s.read dRef) "script" = some (.jobj m) → s2.read b2.scriptRef = m) :=
  update_from_dict_char s b dRef b2 s2 hv hd hne hss hcell h

/-- C6 witness: updating a fresh builder from a mapping holding only an
unknown key stores it as extras and leaves the caller's mapping untouched. -/
theorem update_from_dict_witness :
    (UpdateByQuery.mk 0 none 2 1 0 none "default" [] none).update_from_dict 3
        ⟨4, [(3, [("conflicts", JVal.jstr "proceed")]), (2, []), (1, [])]⟩
      = some (⟨0, none, 2, 1, 0, none, "default", [], none⟩,
              ⟨4, [(3, [("conflicts", JVal.jstr "proceed")]), (2, []),
                   (1, [("conflicts", JVal.jstr "proceed")])]⟩)
    ∧ (⟨4, [(3, [("conflicts", JVal.jstr "proceed")]), (2, []),
            (1, [("conflicts", JVal.jstr "proceed")])]⟩ : Store).read 3
      = (⟨4, [(3, [("conflicts", JVal.jstr "proceed")]), (2, []), (1, [])]⟩ : Store).read 3 :=
  ⟨rfl,
   (update_from_dict_pops_copies_and_passes_through
      ⟨4, [(3, [("conflicts", JVal.jstr "proceed")]), (2, []), (1, [])]⟩
      (UpdateByQuery.mk 0 none 2 1 0 none "default" [] none) 3
      ⟨0, none, 2, 1, 0, none, "default", [], none⟩
      ⟨4, [(3, [("conflicts", JVal.jstr "proceed")]), (2, []),
           (1, [("conflicts", JVal.jstr "proceed")])]⟩
      (by decide) (by decide) (by decide) (by decide) (by decide) rfl).1⟩

theorem pbf_mn (mn : List QueryNode) (h : parseQList (toDictList mn) = some mn) :
    parseBoolFields (if mn.isEmpty then [] else [("must_not", JVal.jarr (toDictList mn))])
      = some ([], [], [], mn) := by
  cases mn with
  | nil => simp [parseBoolFields]
  | cons q qs => simp [parseBoolFields, pbfStep, assignClause, h]

theorem pbf_sh (sh mn : List QueryNode) (hsh : parseQList (toDictList sh) = some sh)
    (rest : List (String × JVal)) (hrest : parseBoolFields rest = some ([], [], [], mn)) :
    parseBoolFields ((if sh.isEmpty then [] else [("should", JVal.jarr (toDictList sh))]) ++ rest)
      = some ([], [], sh, mn) := by
  cases sh with
  | nil => simpa using hrest
  | cons q qs => simp [parseBoolFields, pbfStep, assignClause, hrest, hsh]

theorem pbf_f (f sh mn : List QueryNode) (hf : parseQList (toDictList f) = some f)
    (rest : List (String × JVal)) (hrest : parseBoolFields rest = some ([], [], sh, mn)) :
    parseBoolFields ((if f.isEmpty then [] else [("filter", JVal.jarr (toDictList f))]) ++ rest)
      = some ([], f, sh, mn) := by
  cases f with
  | nil => simpa using hrest
  | cons q qs => simp [parseBoolFields, pbfStep, assignClause, hrest, hf]

theorem pbf_m (m f sh mn : List QueryNode) (hm : parseQList (toDictList m) = some m)
    (rest : List (String × JVal)) (hrest : parseBoolFields rest = some ([], f, sh, mn)) :
    parseBoolFields ((if m.isEmpty then [] else [("must", JVal.jarr (toDictList m))]) ++ rest)
      = some (m, f, sh, mn) := by
  cases m with
  | nil => simpa using hrest
  | cons q qs => simp [parseBoolFields, pbfStep, assignClause, hrest, hm]

mutual

/-- Parsing a serialized well-formed query node recovers it exactly. -/
theorem parse_toDict (q : QueryNode) (h : q.wfq = true) : parseQ q.toDict = some q := by
  cases q with
  | leaf kind params =>
    have hk : kind ≠ "bool" := by simpa [QueryNode.wfq] using h
    simp [QueryNode.toDict, parseQ, hk]
  | boolq m f sh mn =>
    simp only [QueryNode.wfq, Bool.and_eq_true] at h
    obtain ⟨⟨⟨hm, hf⟩, hsh⟩, hmn⟩ := h
    have h1 := parse_toDictList mn hmn
    have h2 := parse_toDictList sh hsh
    have h3 := parse_toDictList f hf
    have h4 := parse_toDictList m hm
    simp only [QueryNode.toDict, parseQ, mkBool]
    rw [List.append_assoc, List.append_assoc]
    rw [pbf_m m f sh mn h4 _ (pbf_f f sh mn h3 _ (pbf_sh sh mn h2 _ (pbf_mn mn h1)))]
    simp

/-- Parsing a serialized list of well-formed query nodes recovers it exactly. -/
theorem parse_toDictList (l : List QueryNode) (h : wfqList l = true) :
    parseQList (toDictList l) = some l := by
  cases l with
  | nil => rfl
  | cons q qs =>
    simp only [wfqList, Bool.and_eq_true] at h
    obtain ⟨h1, h2⟩ := h
    simp [toDictList, parseQList, consParsed, parse_toDict q h1, parse_toDictList qs h2]

end

theorem drm_cons_query (v : JVal) (d : JDict) :
    dremoveKeys (("query", v) :: d) ["query", "script"] = dremoveKeys d ["query", "script"] := by
  simp [dremoveKeys]

theorem drm_cons_script (v : JVal) (d : JDict) :
    dremoveKeys (("script", v) :: d) ["query", "script"] = dremoveKeys d ["query", "script"] := by
  simp [dremoveKeys]

theorem dremoveKeys_keep (d : JDict) (h1 : "query" ∉ dkeys d) (h2 : "script" ∉ dkeys d) :
    dremoveKeys d ["query", "script"] = d := by
  unfold dremoveKeys
  rw [List.filter_eq_self]
  intro a ha
  have hk : a.1 ∈ dkeys d := List.mem_map_of_mem _ ha
  have hq : a.1 ≠ "query" := fun hh => h1 (hh ▸ hk)
  have hs : a.1 ≠ "script" := fun hh => h2 (hh ▸ hk)
  simp [hq, hs]

theorem hasCell_head (r : Nat) (d : JDict) (cs : List (Nat × JDict)) :
    hasCell ((r, d) :: cs) r = true := by
  simp [hasCell]

theorem hasCell_cons (r1 : Nat) (d : JDict) (cs : List (Nat × JDict)) (r : Nat)
    (h : hasCell cs r = true) : hasCell ((r1, d) :: cs) r = true := by
  simp [hasCell, h]


theorem from_dict_to_dict_roundtrip (s : Store) (b : UpdateByQuery) (hg : GoodB b s) :
    ∃ b2 s2,
      UpdateByQuery.from_dict (s.alloc (b.to_dict [] s)).1 (s.alloc (b.to_dict [] s)).2
        = some (b2, s2)
      ∧ b2.queryProxied = b.queryProxied
      ∧ s2.read b2.scriptRef = s.read b.scriptRef
      ∧ s2.read b2.extraRef = s.read b.extraRef := by
  obtain ⟨hwf, hgq, hgs, hnodup⟩ := hg
  have hdisj : ∀ k ∈ dkeys (s.read b.extraRef), k ∉ dkeys (b.baseBody s) :=
    fun k hk hmem => (mem_dkeys_baseBody b s k hmem).elim
      (fun h => hgq (h ▸ hk)) (fun h => hgs (h ▸ hk))
  have hbody : b.to_dict [] s = b.baseBody s ++ s.read b.extraRef :=
    dupdate_disjoint _ _ hnodup hdisj
  show ∃ b2 s2,
      UpdateByQuery.update_from_dict
        ⟨s.nextId + 1, none, s.nextId + 3, s.nextId + 2, updateByQueryResponseCls, none,
         "default", [], none⟩ s.nextId
        ⟨s.nextId + 4, (s.nextId + 3, []) :: (s.nextId + 2, []) ::
         (s.nextId, b.to_dict [] s) :: s.cells⟩
        = some (b2, s2) ∧ _
  have hd3 : (⟨s.nextId + 4, (s.nextId + 3, []) :: (s.nextId + 2, []) ::
      (s.nextId, b.to_dict [] s) :: s.cells⟩ : Store).read s.nextId = b.to_dict [] s := by
    show readCells _ _ = _
    rw [readCells_cons_ne _ _ _ _ (by omega), readCells_cons_ne _ _ _ _ (by omega)]
    simp [readCells]
  have hd2 : (⟨s.nextId + 4, (s.nextId + 3, []) :: (s.nextId + 2, []) ::
      (s.nextId, b.to_dict [] s) :: s.cells⟩ : Store).read (s.nextId + 2) = [] := by
    show readCells _ _ = _
    rw [readCells_cons_ne _ _ _ _ (by omega)]
    simp [readCells]
  have hdisj0 : ∀ k ∈ dkeys (s.read b.extraRef), k ∉ dkeys ([] : JDict) := by
    intro k _
    simp [dkeys]
  have hdup0 : dupdate ([] : JDict) (s.read b.extraRef) = s.read b.extraRef :=
    dupdate_disjoint _ _ hnodup hdisj0
  cases hqp : b.queryProxied with
  | none =>
    cases hemp : (s.read b.scriptRef).isEmpty with
    | true =>
      have hbase : b.baseBody s = [] := by
        unfold UpdateByQuery.baseBody
        rw [hqp]
        simp [hemp]
      have hbodyA : b.to_dict [] s = s.read b.extraRef := by
        rw [hbody, hbase]
        rfl
      have hdq : dget (b.to_dict [] s) "query" = none := by
        rw [hbodyA]
        exact dget_eq_none_of_not_mem _ _ hgq
      have hds : dget (b.to_dict [] s) "script" = none := by
        rw [hbodyA]
        exact dget_eq_none_of_not_mem _ _ hgs
      have hrest : dremoveKeys (b.to_dict [] s) ["query", "script"] = s.read b.extraRef := by
        rw [hbodyA]
        exact dremoveKeys_keep _ hgq hgs
      simp only [UpdateByQuery.update_from_dict, hd3, hd2, hdq, hds, hrest, hdup0]
      refine ⟨_, _, rfl, rfl, ?_, ?_⟩
      · show readCells (setCell _ (s.nextId + 2) _) (s.nextId + 3) = _
        rw [readCells_setCell_ne _ _ _ _ (by omega)]
        rw [List.isEmpty_iff.mp hemp]
        simp [readCells]
      · show readCells (setCell _ (s.nextId + 2) _) (s.nextId + 2) = _
        rw [readCells_setCell_self _ _ _
          (hasCell_cons _ _ _ _ (hasCell_head _ _ _))]
    | false =>
      have hbase : b.baseBody s = [("script", JVal.jobj (s.read b.scriptRef))] := by
        unfold UpdateByQuery.baseBody
        rw [hqp]
        simp [hemp]
      have hbodyB : b.to_dict [] s
          = ("script", JVal.jobj (s.read b.scriptRef)) :: s.read b.extraRef := by
        rw [hbody, hbase]
        rfl
      have hdq : dget (b.to_dict [] s) "query" = none := by
        rw [hbodyB]
        show dget _ _ = _
        simp only [dget, if_neg (by decide : ¬ ("script" = "query"))]
        exact dget_eq_none_of_not_mem _ _ hgq
      have hds : dget (b.to_dict [] s) "script" = some (JVal.jobj (s.read b.scriptRef)) := by
        rw [hbodyB]
        simp [dget]
      have hrest : dremoveKeys (b.to_dict [] s) ["query", "script"] = s.read b.extraRef := by
        rw [hbodyB, drm_cons_script]
        exact dremoveKeys_keep _ hgq hgs
      simp only [UpdateByQuery.update_from_dict, hd3, hdq, hds, hrest]
      refine ⟨_, _, rfl, rfl, ?_, ?_⟩
      · show readCells (setCell ((s.nextId + 4, s.read b.scriptRef) :: _) (s.nextId + 2) _)
            (s.nextId + 4) = _
        rw [readCells_setCell_ne _ _ _ _ (by omega)]
        simp [readCells]
      · show readCells (setCell ((s.nextId + 4, s.read b.scriptRef) :: (s.nextId + 3, []) ::
            (s.nextId + 2, []) :: (s.nextId, b.to_dict [] s) :: s.cells) (s.nextId + 2) _)
            (s.nextId + 2) = _
        rw [readCells_setCell_self _ _ _
          (hasCell_cons _ _ _ _ (hasCell_cons _ _ _ _ (hasCell_head _ _ _)))]
        show dupdate (readCells ((s.nextId + 4, s.read b.scriptRef) :: (s.nextId + 3, []) ::
            (s.nextId + 2, []) :: (s.nextId, b.to_dict [] s) :: s.cells) (s.nextId + 2))
            (s.read b.extraRef) = s.read b.extraRef
        rw [readCells_cons_ne _ _ _ _ (by omega), readCells_cons_ne _ _ _ _ (by omega)]
        simp only [readCells, if_pos rfl]
        exact hdup0
  | some qn =>
    have hwfq : qn.wfq = true := by
      rw [hqp] at hwf
      simpa [wfqOpt] using hwf
    have hp : parseQ qn.toDict = some qn := parse_toDict qn hwfq
    cases hemp : (s.read b.scriptRef).isEmpty with
    | true =>
      have hbase : b.baseBody s = [("query", qn.toDict)] := by
        unfold UpdateByQuery.baseBody
        rw [hqp]
        simp [hemp]
      have hbodyC : b.to_dict [] s = ("query", qn.toDict) :: s.read b.extraRef := by
        rw [hbody, hbase]
        rfl
      have hdq : dget (b.to_dict [] s) "query" = some qn.toDict := by
        rw [hbodyC]
        simp [dget]
      have hds : dget (b.to_dict [] s) "script" = none := by
        rw [hbodyC]
        show dget _ _ = _
        simp only [dget, if_neg (by decide : ¬ ("query" = "script"))]
        exact dget_eq_none_of_not_mem _ _ hgs
      have hrest : dremoveKeys (b.to_dict [] s) ["query", "script"] = s.read b.extraRef := by
        rw [hbodyC, drm_cons_query]
        exact dremoveKeys_keep _ hgq hgs
      simp only [UpdateByQuery.update_from_dict, hd3, hd2, hdq, hds, hrest, hdup0, hp]
      refine ⟨_, _, rfl, rfl, ?_, ?_⟩
      · show readCells (setCell _ (s.nextId + 2) _) (s.nextId + 3) = _
        rw [readCells_setCell_ne _ _ _ _ (by omega)]
        rw [List.isEmpty_iff.mp hemp]
        simp [readCells]
      · show readCells (setCell _ (s.nextId + 2) _) (s.nextId + 2) = _
        rw [readCells_setCell_self _ _ _
          (hasCell_cons _ _ _ _ (hasCell_head _ _ _))]
    | false =>
      have hbase : b.baseBody s
          = [("query", qn.toDict), ("script", JVal.jobj (s.read b.scriptRef))] := by
        unfold UpdateByQuery.baseBody
        rw [hqp]
        simp [hemp]
      have hbodyD : b.to_dict [] s
          = ("query", qn.toDict) :: ("script", JVal.jobj (s.read b.scriptRef)) ::
            s.read b.extraRef := by
        rw [hbody, hbase]
        rfl
      have hdq : dget (b.to_dict [] s) "query" = some qn.toDict := by
        rw [hbodyD]
        simp [dget]
      have hds : dget (b.to_dict [] s) "script" = some (JVal.jobj (s.read b.scriptRef)) := by
        rw [hbodyD]
        simp [dget]
      have hrest : dremoveKeys (b.to_dict [] s) ["query", "script"] = s.read b.extraRef := by
        rw [hbodyD, drm_cons_query, drm_cons_script]
        exact dremoveKeys_keep _ hgq hgs
      simp only [UpdateByQuery.update_from_dict, hd3, hdq, hds, hrest, hp]
      refine ⟨_, _, rfl, rfl, ?_, ?_⟩
      · show readCells (setCell ((s.nextId + 4, s.read b.scriptRef) :: _) (s.nextId + 2) _)
            (s.nextId + 4) = _
        rw [readCells_setCell_ne _ _ _ _ (by omega)]
        simp [readCells]
      · show readCells (setCell ((s.nextId + 4, s.read b.scriptRef) :: (s.nextId + 3, []) ::
            (s.nextId + 2, []) :: (s.nextId, b.to_dict [] s) :: s.cells) (s.nextId + 2) _)
            (s.nextId + 2) = _
        rw [readCells_setCell_self _ _ _
          (hasCell_cons _ _ _ _ (hasCell_cons _ _ _ _ (hasCell_head _ _ _)))]
        show dupdate (readCells ((s.nextId + 4, s.read b.scriptRef) :: (s.nextId + 3, []) ::
            (s.nextId + 2, []) :: (s.nextId, b.to_dict [] s) :: s.cells) (s.nextId + 2))
            (s.read b.extraRef) = s.read b.extraRef
        rw [readCells_cons_ne _ _ _ _ (by omega), readCells_cons_ne _ _ _ _ (by omega)]
        simp only [readCells, if_pos rfl]
        exact hdup0

/-- C1 witness: the round trip applied to a freshly constructed builder. -/
theorem from_dict_to_dict_roundtrip_witness :
    GoodB (UpdateByQuery.init ⟨0, []⟩).1 (UpdateByQuery.init ⟨0, []⟩).2
    ∧ ∃ b2 s2,
        UpdateByQuery.from_dict
          (((UpdateByQuery.init ⟨0, []⟩).2).alloc
            ((UpdateByQuery.init ⟨0, []⟩).1.to_dict [] (UpdateByQuery.init ⟨0, []⟩).2)).1
          (((UpdateByQuery.init ⟨0, []⟩).2).alloc
            ((UpdateByQuery.init ⟨0, []⟩).1.to_dict [] (UpdateByQuery.init ⟨0, []⟩).2)).2
          = some (b2, s2)
        ∧ b2.queryProxied = (UpdateByQuery.init ⟨0, []⟩).1.queryProxied
        ∧ s2.read b2.scriptRef
            = (UpdateByQuery.init ⟨0, []⟩).2.read (UpdateByQuery.init ⟨0, []⟩).1.scriptRef
        ∧ s2.read b2.extraRef
            = (UpdateByQuery.init ⟨0, []⟩).2.read (UpdateByQuery.init ⟨0, []⟩).1.extraRef :=
  ⟨by decide, from_dict_to_dict_roundtrip _ _ (by decide)⟩

theorem wfqList_append (l1 l2 : List QueryNode) :
    wfqList (l1 ++ l2) = (wfqList l1 && wfqList l2) := by
  induction l1 with
  | nil => simp [wfqList]
  | cons q qs ih => simp [wfqList, ih, Bool.and_assoc]

theorem wfq_negate (q : QueryNode) (h : q.wfq = true) : (negate q).wfq = true := by
  match q with
  | .leaf k p =>
    show (QueryNode.boolq [] [] [] [QueryNode.leaf k p]).wfq = true
    simpa [QueryNode.wfq, wfqList] using h
  | .boolq (a :: ms) f sh mn =>
    show (QueryNode.boolq [] [] [] [QueryNode.boolq (a :: ms) f sh mn]).wfq = true
    simpa [QueryNode.wfq, wfqList] using h
  | .boolq [] (a :: fs) sh mn =>
    show (QueryNode.boolq [] [] [] [QueryNode.boolq [] (a :: fs) sh mn]).wfq = true
    simpa [QueryNode.wfq, wfqList] using h
  | .boolq [] [] (a :: shs) mn =>
    show (QueryNode.boolq [] [] [] [QueryNode.boolq [] [] (a :: shs) mn]).wfq = true
    simpa [QueryNode.wfq, wfqList] using h
  | .boolq [] [] [] [] =>
    show (QueryNode.boolq [] [] [] [QueryNode.boolq [] [] [] []]).wfq = true
    simp [QueryNode.wfq, wfqList]
  | .boolq [] [] [] (c1 :: c2 :: cs) =>
    show (QueryNode.boolq [] [] [] [QueryNode.boolq [] [] [] (c1 :: c2 :: cs)]).wfq = true
    simpa [QueryNode.wfq, wfqList] using h
  | .boolq [] [] [] [c] =>
    show c.wfq = true
    simpa [QueryNode.wfq, wfqList] using h

theorem wfq_combine (a b : QueryNode) (ha : a.wfq = true) (hb : b.wfq = true) :
    (combine a b).wfq = true := by
  unfold combine
  split
  · next m1 f1 m2 f2 =>
    simp only [QueryNode.wfq, Bool.and_eq_true] at ha hb
    simp [QueryNode.wfq, wfqList_append, wfqList, ha.1.1.1, ha.1.1.2, hb.1.1.1, hb.1.1.2]
  · next m1 f1 other =>
    simp only [QueryNode.wfq, Bool.and_eq_true] at ha
    simp [QueryNode.wfq, wfqList_append, wfqList, ha.1.1.1, ha.1.1.2, hb]
  · next other m2 f2 =>
    simp only [QueryNode.wfq, Bool.and_eq_true] at hb
    simp [QueryNode.wfq, wfqList_append, wfqList, hb.1.1.1, hb.1.1.2, ha]
  · simp [QueryNode.wfq, wfqList, ha, hb]

mutual

/-- Every query node produced by parsing is well-formed: the `"bool"` name is
reserved for compound nodes by the parser's guard. -/
theorem parse_wfq (v : JVal) (qn : QueryNode) (h : parseQ v = some qn) : qn.wfq = true := by
  rw [parseQ.eq_def] at h
  split at h
  · next name fields =>
    by_cases hn : name = "bool"
    · rw [if_pos hn] at h
      cases hpb : parseBoolFields fields with
      | none => rw [hpb] at h; simp [mkBool] at h
      | some acc =>
        obtain ⟨m, f, sh, mn⟩ := acc
        rw [hpb] at h
        simp only [mkBool, Option.some.injEq] at h
        obtain ⟨hm, hf, hsh, hmn⟩ := parseBoolFields_wfq fields m f sh mn hpb
        subst h
        simp [QueryNode.wfq, hm, hf, hsh, hmn]
    · rw [if_neg hn] at h
      rw [Option.some.injEq] at h
      subst h
      simp [QueryNode.wfq, hn]
  · exact Option.noConfusion h
termination_by sizeOf v

/-- Every clause tuple produced by parsing a `bool` body is well-formed. -/
theorem parseBoolFields_wfq (fs : List (String × JVal)) (m f sh mn : List QueryNode)
    (h : parseBoolFields fs = some (m, f, sh, mn)) :
    wfqList m = true ∧ wfqList f = true ∧ wfqList sh = true ∧ wfqList mn = true := by
  rw [parseBoolFields.eq_def] at h
  split at h
  · simp only [Option.some.injEq, Prod.mk.injEq] at h
    obtain ⟨h1, h2, h3, h4⟩ := h
    subst h1; subst h2; subst h3; subst h4
    simp [wfqList]
  · next k v rest =>
    cases hr : parseBoolFields rest with
    | none => rw [hr] at h; simp [pbfStep] at h
    | some acc =>
      obtain ⟨m0, f0, sh0, mn0⟩ := acc
      rw [hr] at h
      obtain ⟨hm0, hf0, hsh0, hmn0⟩ := parseBoolFields_wfq rest m0 f0 sh0 mn0 hr
      cases v with
      | jnull => simp [pbfStep] at h
      | jbool b2 => simp [pbfStep] at h
      | jnum n => simp [pbfStep] at h
      | jstr s2 => simp [pbfStep] at h
      | jobj fs2 => simp [pbfStep] at h
      | jarr items =>
        replace h : pbfStep k (some (m0, f0, sh0, mn0)) (parseQList items)
            = some (m, f, sh, mn) := h
        cases hl : parseQList items with
        | none => rw [hl] at h; simp [pbfStep] at h
        | some l =>
          rw [hl] at h
          simp only [pbfStep] at h
          have hlw := parseQList_wfq items l hl
          rw [assignClause] at h
          split at h
          · simp only [Option.some.injEq, Prod.mk.injEq] at h
            obtain ⟨h1, h2, h3, h4⟩ := h
            subst h1; subst h2; subst h3; subst h4
            exact ⟨hlw, hf0, hsh0, hmn0⟩
          · split at h
            · simp only [Option.some.injEq, Prod.mk.injEq] at h
              obtain ⟨h1, h2, h3, h4⟩ := h
              subst h1; subst h2; subst h3; subst h4
              exact ⟨hm0, hlw, hsh0, hmn0⟩
            · split at h
              · simp only [Option.some.injEq, Prod.mk.injEq] at h
                obtain ⟨h1, h2, h3, h4⟩ := h
                subst h1; subst h2; subst h3; subst h4
                exact ⟨hm0, hf0, hlw, hmn0⟩
              · split at h
                · simp only [Option.some.injEq, Prod.mk.injEq] at h
                  obtain ⟨h1, h2, h3, h4⟩ := h
                  subst h1; subst h2; subst h3; subst h4
                  exact ⟨hm0, hf0, hsh0, hlw⟩
                · exact Option.noConfusion h
termination_by sizeOf fs

/-- Every query list produced by parsing is well-formed, elementwise. -/
theorem parseQList_wfq (vs : List JVal) (l : List QueryNode)
    (h : parseQList vs = some l) : wfqList l = true := by
  rw [parseQList.eq_def] at h
  split at h
  · simp only [Option.some.injEq] at h
    subst h
    rfl
  · next v rest =>
    cases hp : parseQ v with
    | none => rw [hp] at h; simp [consParsed] at h
    | some q0 =>
      cases hr : parseQList rest with
      | none => rw [hp, hr] at h; simp [consParsed] at h
      | some qs =>
        rw [hp, hr] at h
        simp only [consParsed, Option.some.injEq] at h
        subst h
        have h1 := parse_wfq v q0 hp
        have h2 := parseQList_wfq rest qs hr
        simp [wfqList, h1, h2]
termination_by sizeOf vs

end

theorem nodup_dkeys_dinsert (d : JDict) (k : String) (v : JVal)
    (h : (dkeys d).Nodup) : (dkeys (dinsert d k v)).Nodup := by
  by_cases hm : k ∈ dkeys d
  · induction d with
    | nil => simp [dkeys] at hm
    | cons p rest ih =>
      obtain ⟨k1, v1⟩ := p
      simp only [dkeys_cons, List.nodup_cons] at h
      by_cases hk : k1 = k
      · subst hk
        rw [dinsert_cons_eq]
        simp [dkeys_cons, List.nodup_cons, h.1, h.2]
      · rw [dinsert_cons_ne _ _ _ _ _ hk]
        simp only [dkeys_cons, List.mem_cons] at hm
        rcases hm with hm | hm
        · exact absurd hm.symm hk
        · simp only [dkeys_cons, List.nodup_cons]
          refine ⟨?_, ih h.2 hm⟩
          rw [mem_dkeys_dinsert]
          push_neg
          exact ⟨h.1, hk⟩
  · rw [dinsert_notin _ _ _ hm, dkeys_append]
    simp only [dkeys_cons, dkeys_nil]
    rw [List.nodup_append]
    exact ⟨h, List.nodup_singleton _, by simpa using hm⟩

theorem nodup_dkeys_dupdate (d kvs : JDict) (h : (dkeys d).Nodup) :
    (dkeys (dupdate d kvs)).Nodup := by
  induction kvs generalizing d with
  | nil => exact h
  | cons p rest ih =>
    obtain ⟨k1, v1⟩ := p
    exact ih _ (nodup_dkeys_dinsert _ _ _ h)

theorem not_mem_dkeys_dremoveKeys (d : JDict) (ks : List String) (k : String)
    (hk : ks.contains k = true) : k ∉ dkeys (dremoveKeys d ks) := by
  intro hmem
  unfold dremoveKeys at hmem
  rw [dkeys] at hmem
  obtain ⟨p, hp, hpk⟩ := List.mem_map.mp hmem
  have hk2 : k ∈ ks := by simpa using hk
  have hfp := List.of_mem_filter hp
  simp [hpk, hk2] at hfp

/-- A freshly constructed builder is API-constructible. -/
theorem GoodB_init (s : Store) : GoodB (UpdateByQuery.init s).1 (UpdateByQuery.init s).2 := by
  have hr : (UpdateByQuery.init s).2.read (UpdateByQuery.init s).1.extraRef = [] := by
    rw [UpdateByQuery.init_eq]
    show readCells ((s.nextId + 2, []) :: (s.nextId + 1, []) :: s.cells) (s.nextId + 1) = []
    rw [readCells_cons_ne _ _ _ _ (by omega)]
    simp [readCells]
  refine ⟨?_, ?_, ?_, ?_⟩
  · rw [UpdateByQuery.init_eq]
    rfl
  · rw [hr]
    simp [dkeys]
  · rw [hr]
    simp [dkeys]
  · rw [hr]
    simp [dkeys]

/-- `filter` keeps a builder API-constructible when its argument is a
well-formed query term. -/
theorem GoodB_filter (s : Store) (b : UpdateByQuery) (hg : GoodB b s) (qn : QueryNode)
    (hq : qn.wfq = true) : GoodB (b.filter qn s).1 (b.filter qn s).2 := by
  obtain ⟨hwf, h2, h3, h4⟩ := hg
  have hr : (b.filter qn s).2.read (b.filter qn s).1.extraRef = s.read b.extraRef := by
    rw [UpdateByQuery.filter_eq]
    show readCells ((s.nextId + 2, s.read b.scriptRef) ::
        (s.nextId + 1, s.read b.extraRef) :: s.cells) (s.nextId + 1) = s.read b.extraRef
    rw [readCells_cons_ne _ _ _ _ (by omega)]
    simp [readCells]
  refine ⟨?_, by rw [hr]; exact h2, by rw [hr]; exact h3, by rw [hr]; exact h4⟩
  rw [UpdateByQuery.filter_eq]
  show wfqOpt (some _) = true
  simp only [wfqOpt]
  cases hqp : b.queryProxied with
  | none => simp [QueryNode.wfq, wfqList, hq]
  | some cur =>
    have hcur : cur.wfq = true := by
      rw [hqp] at hwf
      simpa [wfqOpt] using hwf
    exact wfq_combine _ _ hcur (by simp [QueryNode.wfq, wfqList, hq])

/-- `exclude` keeps a builder API-constructible when its argument is a
well-formed query term. -/
theorem GoodB_exclude (s : Store) (b : UpdateByQuery) (hg : GoodB b s) (qn : QueryNode)
    (hq : qn.wfq = true) : GoodB (b.exclude qn s).1 (b.exclude qn s).2 := by
  obtain ⟨hwf, h2, h3, h4⟩ := hg
  have hr : (b.exclude qn s).2.read (b.exclude qn s).1.extraRef = s.read b.extraRef := by
    rw [UpdateByQuery.exclude_eq]
    show readCells ((s.nextId + 2, s.read b.scriptRef) ::
        (s.nextId + 1, s.read b.extraRef) :: s.cells) (s.nextId + 1) = s.read b.extraRef
    rw [readCells_cons_ne _ _ _ _ (by omega)]
    simp [readCells]
  refine ⟨?_, by rw [hr]; exact h2, by rw [hr]; exact h3, by rw [hr]; exact h4⟩
  rw [UpdateByQuery.exclude_eq]
  show wfqOpt (some _) = true
  simp only [wfqOpt]
  have hneg : (negate qn).wfq = true := wfq_negate qn hq
  cases hqp : b.queryProxied with
  | none => simp [QueryNode.wfq, wfqList, hneg]
  | some cur =>
    have hcur : cur.wfq = true := by
      rw [hqp] at hwf
      simpa [wfqOpt] using hwf
    exact wfq_combine _ _ hcur (by simp [QueryNode.wfq, wfqList, hneg])

/-- `script` keeps a builder API-constructible. -/
theorem GoodB_script (s : Store) (b : UpdateByQuery) (hg : GoodB b s) (kwargs : JDict) :
    GoodB (b.script kwargs s).1 (b.script kwargs s).2 := by
  obtain ⟨hwf, h2, h3, h4⟩ := hg
  have hr : (b.script kwargs s).2.read (b.script kwargs s).1.extraRef
      = s.read b.extraRef := by
    rw [UpdateByQuery.script_eq]
    split
    · show readCells ((s.nextId + 2, dupdate (s.read b.scriptRef) kwargs) ::
          (s.nextId + 1, s.read b.extraRef) :: s.cells) (s.nextId + 1) = s.read b.extraRef
      rw [readCells_cons_ne _ _ _ _ (by omega)]
      simp [readCells]
    · show readCells ((s.nextId + 3, dupdate [] kwargs) ::
          (s.nextId + 2, s.read b.scriptRef) ::
          (s.nextId + 1, s.read b.extraRef) :: s.cells) (s.nextId + 1) = s.read b.extraRef
      rw [readCells_cons_ne _ _ _ _ (by omega), readCells_cons_ne _ _ _ _ (by omega)]
      simp [readCells]
  have hqeq : (b.script kwargs s).1.queryProxied = b.queryProxied := by
    rw [UpdateByQuery.script_eq]
    split <;> rfl
  exact ⟨by rw [hqeq]; exact hwf, by rw [hr]; exact h2, by rw [hr]; exact h3,
         by rw [hr]; exact h4⟩

/-- `response_class` keeps a builder API-constructible. -/
theorem GoodB_response_class (s : Store) (b : UpdateByQuery) (hg : GoodB b s) (cls : Nat) :
    GoodB (b.response_class cls s).1 (b.response_class cls s).2 := by
  obtain ⟨hwf, h2, h3, h4⟩ := hg
  have hr : (b.response_class cls s).2.read (b.response_class cls s).1.extraRef
      = s.read b.extraRef := by
    rw [UpdateByQuery.response_class_eq]
    show readCells ((s.nextId + 2, s.read b.scriptRef) ::
        (s.nextId + 1, s.read b.extraRef) :: s.cells) (s.nextId + 1) = s.read b.extraRef
    rw [readCells_cons_ne _ _ _ _ (by omega)]
    simp [readCells]
  exact ⟨hwf, by rw [hr]; exact h2, by rw [hr]; exact h3, by rw [hr]; exact h4⟩

/-- A successful `update_from_dict` keeps a builder API-constructible: the
parsed query is well-formed, and the popped keys never enter extras. -/
theorem GoodB_update_from_dict (s : Store) (b : UpdateByQuery) (dRef : Nat)
    (b2 : UpdateByQuery) (s2 : Store) (hg : GoodB b s)
    (hv : b.validB s) (hd : dRef < s.nextId) (hne : dRef ≠ b.extraRef)
    (hss : b.scriptRef ≠ b.extraRef) (hcell : hasCell s.cells b.extraRef = true)
    (h : b.update_from_dict dRef s = some (b2, s2)) : GoodB b2 s2 := by
  obtain ⟨hrd, hbid, her, hex, hqnone, hqsome, hscnone, hscsome⟩ :=
    update_from_dict_char s b dRef b2 s2 hv hd hne hss hcell h
  refine ⟨?_, ?_, ?_, ?_⟩
  · cases hdq : dget (s.read dRef) "query" with
    | none => rw [hqnone hdq]; exact hg.1
    | some v =>
      obtain ⟨qn, hp, hq2⟩ := hqsome v hdq
      rw [hq2]
      show wfqOpt (some qn) = true
      simpa [wfqOpt] using parse_wfq v qn hp
  · rw [hex]
    intro hmem
    rcases (mem_dkeys_dupdate _ _ _).mp hmem with hm | hm
    · exact hg.2.1 hm
    · exact not_mem_dkeys_dremoveKeys _ _ _ (by decide) hm
  · rw [hex]
    intro hmem
    rcases (mem_dkeys_dupdate _ _ _).mp hmem with hm | hm
    · exact hg.2.2.1 hm
    · exact not_mem_dkeys_dremoveKeys _ _ _ (by decide) hm
  · rw [hex]
    exact nodup_dkeys_dupdate _ _ hg.2.2.2

/-- `from_dict` produces an API-constructible builder (fresh instance, then a
successful `update_from_dict`). -/
theorem GoodB_from_dict (s : Store) (dRef : Nat) (b2 : UpdateByQuery) (s2 : Store)
    (hd : dRef < s.nextId)
    (h : UpdateByQuery.from_dict dRef s = some (b2, s2)) : GoodB b2 s2 := by
  have hgi := GoodB_init s
  refine GoodB_update_from_dict (UpdateByQuery.init s).2 (UpdateByQuery.init s).1 dRef b2 s2
      hgi ?_ ?_ ?_ ?_ ?_ ?_
  · rw [UpdateByQuery.init_eq]
    show s.nextId < s.nextId + 3 ∧ s.nextId + 2 < s.nextId + 3 ∧ s.nextId + 1 < s.nextId + 3
    exact ⟨by omega, by omega, by omega⟩
  · rw [UpdateByQuery.init_eq]
    show dRef < s.nextId + 3
    omega
  · rw [UpdateByQuery.init_eq]
    show dRef ≠ s.nextId + 1
    omega
  · rw [UpdateByQuery.init_eq]
    show s.nextId + 2 ≠ s.nextId + 1
    omega
  · rw [UpdateByQuery.init_eq]
    show hasCell ((s.nextId + 2, []) :: (s.nextId + 1, []) :: s.cells) (s.nextId + 1) = true
    exact hasCell_cons _ _ _ _ (hasCell_head _ _ _)
  · exact h
